import Mathlib

/-!
Verification of the iema-database-chatbot repository.

This file gives a shallow embedding of the parts of `app.py`,
`utils/data.py` and `utils/report_generator.py` that the claims touch, and
theorems settling the claims. Conventions of the embedding:

* Python strings are modelled as `List Char` (`PyStr`); `str.lower`,
  substring tests, `startswith`, `Path.suffix` and the one regular
  expression the code uses are defined structurally below.
* pandas numeric values are modelled as exact rationals `ℚ`.
* The workspace directory and the run directory are modelled as a list of
  files, each being a component path plus a modification time.
* The two LLM agents and the autogen group-chat engine are third-party
  capabilities, not code of this repository; where a claim depends on their
  behaviour the loop is modelled from the specification (its §4.2 state
  machine), and the model is marked `Modelled from the spec:`.
-/

/-- A Python string, modelled as its list of characters. -/
abbrev PyStr := List Char

/-- Lowercase one ASCII character, as Python `str.lower` acts on the ASCII
range (the only characters the keyword table and the prompts of the claims
use). -/
def lowerChar (c : Char) : Char :=
  if 65 ≤ c.toNat ∧ c.toNat ≤ 90 then Char.ofNat (c.toNat + 32) else c

/-- Python `s.lower()`. -/
def pyLower (s : PyStr) : PyStr := s.map lowerChar

/-- Python's substring test `needle in hay`. -/
def listContains (hay needle : PyStr) : Bool :=
  match hay with
  | [] => needle.isEmpty
  | _ :: t => needle.isPrefixOf hay || listContains t needle

/-- Strict lexicographic comparison of Python strings (comparison by Unicode
code point, as Python `<` on `str` and on `Path` objects of one directory). -/
def strLtb : PyStr → PyStr → Bool
  | [], [] => false
  | [], _ :: _ => true
  | _ :: _, [] => false
  | a :: as, b :: bs =>
    if a.toNat < b.toNat then true
    else if b.toNat < a.toNat then false
    else strLtb as bs

/-- Python `a <= b` on strings, as the negation of `b < a`. -/
def strLe (a b : PyStr) : Prop := strLtb b a = false

instance : DecidableRel strLe := fun a b =>
  inferInstanceAs (Decidable (strLtb b a = false))

theorem strLtb_irrefl (a : PyStr) : strLtb a a = false := by
  induction a with
  | nil => rfl
  | cons c t ih => simp [strLtb, ih]

theorem strLtb_asymm (a b : PyStr) (h : strLtb a b = true) : strLtb b a = false := by
  induction a generalizing b with
  | nil =>
    cases b with
    | nil => simp [strLtb] at h
    | cons y bs => simp [strLtb]
  | cons x as ih =>
    cases b with
    | nil => simp [strLtb] at h
    | cons y bs =>
      simp only [strLtb] at h ⊢
      rcases Nat.lt_trichotomy x.toNat y.toNat with hlt | heq | hgt
      · simp [hlt, Nat.lt_asymm hlt]
      · simp only [heq, Nat.lt_irrefl, if_false] at h ⊢
        exact ih bs h
      · simp [hgt, Nat.lt_asymm hgt] at h

theorem strLtb_false_trans (a b c : PyStr)
    (hab : strLtb b a = false) (hbc : strLtb c b = false) : strLtb c a = false := by
  induction a generalizing b c with
  | nil => cases c <;> rfl
  | cons x as ih =>
    cases c with
    | nil =>
      cases b with
      | nil => simp [strLtb] at hab
      | cons y bs => simp [strLtb] at hbc
    | cons z cs =>
      cases b with
      | nil => simp [strLtb] at hab
      | cons y bs =>
        simp only [strLtb] at hab hbc ⊢
        by_cases h1 : y.toNat < x.toNat
        · simp [h1] at hab
        by_cases h2 : z.toNat < y.toNat
        · simp [h2] at hbc
        have hzx : ¬ z.toNat < x.toNat := by omega
        rw [if_neg hzx]
        by_cases h3 : x.toNat < z.toNat
        · simp [h3]
        · rw [if_neg h3]
          have hab' : strLtb bs as = false := by
            simpa [h1, show ¬ x.toNat < y.toNat by omega] using hab
          have hbc' : strLtb cs bs = false := by
            simpa [h2, show ¬ y.toNat < z.toNat by omega] using hbc
          exact ih bs cs hab' hbc'

instance : IsTotal PyStr strLe :=
  ⟨fun a b => by
    by_cases h : strLtb b a = true
    · exact Or.inr (strLtb_asymm b a h)
    · exact Or.inl (by simpa [strLe] using h)⟩

instance : IsTrans PyStr strLe :=
  ⟨fun a b c hab hbc => strLtb_false_trans a b c hab hbc⟩

instance : IsRefl PyStr strLe := ⟨fun a => strLtb_irrefl a⟩

/-! ## `utils/report_generator.py`: trend computation -/

/-- Round half to even, the tie rule of Python's builtin `round`. -/
def roundHalfEven (q : ℚ) : ℤ :=
  let f := Int.floor q
  let frac := q - f
  if frac < 1/2 then f
  else if frac > 1/2 then f + 1
  else if f % 2 = 0 then f else f + 1

/-- Python `round(x, 2)`: round to two decimal places, ties to even. -/
def pyRound2 (q : ℚ) : ℚ := (roundHalfEven (q * 100) : ℚ) / 100

/-- `calculate_trend` from `utils/report_generator.py` (lines 23-32). The
pandas series is modelled as the list of its values in stored order:
`series.iloc[0]` is `headI`, `series.iloc[-1]` is `getLastI`, `len(series)`
is `length`. Both callers (`format_stats`, reached from `generate_pdf_report`
lines 97 and 128) pass the series with missing values already dropped. -/
def calculate_trend (series : List ℚ) : PyStr × ℚ :=
  if series.length < 2 ∨ series.headI = 0 then ("stable".data, 0)
  else
    let trend_strength : ℚ := (series.getLastI - series.headI) / |series.headI| * 100
    let trend_direction : PyStr :=
      if trend_strength > 2/10 then "increasing".data
      else if trend_strength < -(2/10) then "decreasing".data
      else "stable".data
    (trend_direction, pyRound2 trend_strength)

/-- C5, counterexample: on the series `[3, 4]` the code returns trend strength
`33.33`, the raw formula value `(4-3)/|3|*100 = 100/3 = 33.333...` rounded to
two decimal places by `round(trend_strength, 2)` (line 32), so the returned
strength does not equal `(last - first) / |first| * 100` as the claim states. -/
theorem calculate_trend_round_cex :
    calculate_trend [3, 4] = ("increasing".data, 3333/100) ∧
    (3333 / 100 : ℚ) ≠ (4 - 3) / |(3 : ℚ)| * 100 := by
  constructor
  · norm_num [calculate_trend, pyRound2, roundHalfEven, List.headI, List.getLastI]
  · norm_num

/-- C5, amended: `calculate_trend` returns the pair `("stable", 0.0)` whenever
the series has fewer than two values or its first value is zero; otherwise it
classifies the raw value `(last - first) / |first| * 100` over the stored
order of the (already missing-dropped) values against the `0.2` thresholds,
and returns as strength that raw value rounded to two decimal places; in
particular `[10, 20]` yields `("increasing", 100.0)`, `[10, 10]` yields
`("stable", 0.0)`, `[0, 5]` yields `("stable", 0.0)` and a single-element
series yields `("stable", 0.0)`. -/
theorem calculate_trend_spec :
    (∀ s : List ℚ, s.length < 2 ∨ s.headI = 0 → calculate_trend s = ("stable".data, 0)) ∧
    (∀ s : List ℚ, 2 ≤ s.length → s.headI ≠ 0 →
      calculate_trend s =
        ((if (s.getLastI - s.headI) / |s.headI| * 100 > 2/10 then "increasing".data
          else if (s.getLastI - s.headI) / |s.headI| * 100 < -(2/10) then "decreasing".data
          else "stable".data),
         pyRound2 ((s.getLastI - s.headI) / |s.headI| * 100))) ∧
    calculate_trend [10, 20] = ("increasing".data, 100) ∧
    calculate_trend [10, 10] = ("stable".data, 0) ∧
    calculate_trend [0, 5] = ("stable".data, 0) ∧
    calculate_trend [10] = ("stable".data, 0) := by
  refine ⟨fun s h => ?_, fun s h2 h0 => ?_, ?_, ?_, ?_, ?_⟩
  · rw [calculate_trend, if_pos h]
  · rw [calculate_trend, if_neg (by push_neg; exact ⟨by omega, h0⟩)]
  · norm_num [calculate_trend, pyRound2, roundHalfEven, List.headI, List.getLastI]
  · norm_num [calculate_trend, pyRound2, roundHalfEven, List.headI, List.getLastI]
  · norm_num [calculate_trend, List.headI]
  · norm_num [calculate_trend]

/-! ## `app.py`: prompt parsing and dataset resolution -/

/-- The keyword table `col_map` of `parse_columns` (`app.py` lines 30-43), in
its Python insertion order. -/
def col_map : List (PyStr × PyStr) :=
  [("temp one".data, "temperature_one".data),
   ("temperature one".data, "temperature_one".data),
   ("temp1".data, "temperature_one".data),
   ("temp two".data, "temperature_two".data),
   ("temperature two".data, "temperature_two".data),
   ("temp2".data, "temperature_two".data),
   ("vibration x".data, "vibration_x".data),
   ("vib x".data, "vibration_x".data),
   ("vibration y".data, "vibration_y".data),
   ("vib y".data, "vibration_y".data),
   ("vibration z".data, "vibration_z".data),
   ("vib z".data, "vibration_z".data)]

/-- A regex word character (`\w` over ASCII): letter, digit or underscore. -/
def isWordChar (c : Char) : Bool := c.isAlphanum || c == '_'

/-- Match of `\bdata(\d+)\b` at position `i` of `s`: the literal `data`
followed by a non-empty maximal run of digits, with a word boundary on both
sides; yields the string `data<digits>` that `parse_columns` builds from
capture group 1 (line 46). `\d+` is greedy, and a shorter run would abut a
digit - a word character - so only the maximal run can satisfy the trailing
`\b`. -/
def matchDataAt (s : PyStr) (i : Nat) : Option PyStr :=
  let rest := s.drop i
  if "data".data.isPrefixOf rest then
    let digits := (rest.drop 4).takeWhile Char.isDigit
    let okBefore : Bool := decide (i = 0) || !isWordChar (s.getD (i - 1) ' ')
    let okAfter : Bool :=
      match ((rest.drop 4).drop digits.length).head? with
      | none => true
      | some c => !isWordChar c
    if !digits.isEmpty && okBefore && okAfter then
      some ("data".data ++ digits)
    else none
  else none

/-- `re.search(r"\bdata(\d+)\b", s)` (`app.py` line 45): the leftmost match. -/
def searchData (s : PyStr) : Option PyStr :=
  (List.range s.length).findSome? (matchDataAt s)

/-- `parse_columns` from `app.py` (lines 29-48): the canonical column names of
all keyword-table phrases occurring in the lowercased prompt, collected in
table order, and the `data<N>` dataset reference when the regex matches. -/
def parse_columns (prompt : PyStr) : List PyStr × Option PyStr :=
  let prompt_lower := pyLower prompt
  let dataset := searchData prompt_lower
  let columns := (col_map.filter (fun kv => listContains prompt_lower kv.1)).map Prod.snd
  (columns, dataset)

/-- The extension set `DATA_EXTS` (`app.py` line 22). Python iterates a `set`
in an unspecified order; the claims below only depend on membership and on
which probes succeed, not on the iteration order. -/
def DATA_EXTS : List PyStr :=
  [".csv".data, ".tsv".data, ".xlsx".data, ".xls".data, ".json".data]

/-- Python `Path.suffix` of a file name: the name from its last dot on; empty
when the name has no dot, when the only dot is the leading character, or when
the dot is the final character. -/
def pySuffix (name : PyStr) : PyStr :=
  let n := name.length
  let k := name.reverse.indexOf '.'
  if n ≤ k then []
  else
    let i := n - 1 - k
    if 0 < i ∧ i < n - 1 then name.drop i else []

/-- The dataset-file test of `find_dataset_path`'s default scan (`app.py`
line 174) and of the task builder in `query` (lines 250-256): the file name
starts with `data` and its lowercased suffix is a recognized extension. -/
def isDatasetFile (name : PyStr) : Bool :=
  "data".data.isPrefixOf name && DATA_EXTS.contains (pyLower (pySuffix name))

/-- `find_dataset_path` from `app.py` (lines 165-176), over the names of the
files in the workspace directory `TEMP_DIR`. Given an explicit dataset name it
probes `name + ext` for each recognized extension and yields `None` when no
probe hits; given `None` it scans the files in sorted order and yields the
first dataset file. -/
def find_dataset_path (dataset : Option PyStr) (files : List PyStr) : Option PyStr :=
  match dataset with
  | some name =>
    DATA_EXTS.findSome? fun ext =>
      if (name ++ ext) ∈ files then some (name ++ ext) else none
  | none => (files.insertionSort strLe).find? isDatasetFile

/-- The branch the module-level prompt handler takes after parsing (`app.py`
lines 199-227): generate a document from the resolved dataset file, warn that
the requested dataset is missing, or run the agent team on a task string. -/
inductive RouteAction where
  | reportDoc (filePath : PyStr) (columns : List PyStr)
  | warnMissing
  | runTask (task : PyStr)
deriving DecidableEq

/-- The prompt routing of `app.py`: the test `"report" in prompt.lower() and
columns_to_report` (line 199), the dataset resolution of the report branch
(lines 200-226), and the task string `f"{prompt}\nAvailable datasets: ..."`
built by `query` from the dataset files of the run directory (lines 250-257).
`files` are the file names in `TEMP_DIR`; `runFiles` the names in the run
directory in its iteration order. -/
def queryRoute (prompt : PyStr) (files runFiles : List PyStr) : RouteAction :=
  let parsed := parse_columns prompt
  if listContains (pyLower prompt) "report".data && !parsed.1.isEmpty then
    match find_dataset_path parsed.2 files with
    | some file_path => .reportDoc file_path parsed.1
    | none => .warnMissing
  else
    .runTask (prompt ++ "\nAvailable datasets: ".data ++
      List.intercalate ", ".data (runFiles.filter isDatasetFile))

/-- Effect of the report branch (`app.py` lines 200-226) on the workspace
file list and on the Persistent Artifact Slot: the branch only reads the
dataset and writes the document under the separate `report/` directory
(`report_generator.py` lines 141-143); it contains no operation on `TEMP_DIR`
and no assignment to `st.session_state["last_plot"]`, so both components come
back unchanged. -/
def reportBranchEffect (files : List PyStr) (slot : Option PyStr) :
    List PyStr × Option PyStr :=
  (files, slot)

/-- C8: each keyword phrase of the fixed table that occurs (case-insensitively)
as a substring of the prompt contributes its canonical column identifier, all
matches collected in table order (a sublist of the table's value column); a
recognized dataset reference is always `data` followed by a non-empty run of
digits; and the prompt `"report for temp one and vib z from data2"` resolves
to dataset `data2` with columns `[temperature_one, vibration_z]`. -/
theorem parse_columns_spec :
    (∀ p c, c ∈ (parse_columns p).1 ↔
      ∃ k, (k, c) ∈ col_map ∧ listContains (pyLower p) k = true) ∧
    (∀ p, (parse_columns p).1.Sublist (col_map.map Prod.snd)) ∧
    (∀ p t, (parse_columns p).2 = some t →
      ∃ ds, t = "data".data ++ ds ∧ ds ≠ [] ∧ ∀ c ∈ ds, c.isDigit = true) ∧
    parse_columns "report for temp one and vib z from data2".data =
      (["temperature_one".data, "vibration_z".data], some "data2".data) := by
  refine ⟨fun p c => ?_, fun p => ?_, fun p t h => ?_, by decide⟩
  · constructor
    · intro h
      simp only [parse_columns, List.mem_map, List.mem_filter] at h
      obtain ⟨⟨k, v⟩, ⟨hmem, hq⟩, rfl⟩ := h
      exact ⟨k, hmem, hq⟩
    · rintro ⟨k, hk, hq⟩
      simp only [parse_columns, List.mem_map, List.mem_filter]
      exact ⟨⟨k, c⟩, ⟨hk, hq⟩, rfl⟩
  · simpa [parse_columns] using (List.filter_sublist col_map).map Prod.snd
  · simp only [parse_columns] at h
    obtain ⟨i, _, hm⟩ := List.exists_of_findSome?_eq_some h
    simp only [matchDataAt] at hm
    split at hm
    · split at hm
      · rename_i hguard
        simp only [Bool.and_eq_true, Bool.not_eq_true'] at hguard
        refine ⟨_, (Option.some.injEq _ _).mp hm.symm, ?_, ?_⟩
        · simpa [List.isEmpty_iff] using hguard.1.1
        · intro c hc
          exact List.mem_takeWhile_imp hc
      · exact absurd hm (by simp)
    · exact absurd hm (by simp)

/-- C7: when the lowercased prompt contains `report` and at least one column
keyword was recognized, the handler takes the report branch against the
resolved dataset and never hands anything to the orchestration loop; in every
other case it hands the loop the full prompt extended with the dataset file
paths of the run directory. -/
theorem queryRoute_spec :
    (∀ prompt files runFiles,
      (listContains (pyLower prompt) "report".data && !(parse_columns prompt).1.isEmpty) = true →
      (queryRoute prompt files runFiles =
        match find_dataset_path (parse_columns prompt).2 files with
        | some fp => RouteAction.reportDoc fp (parse_columns prompt).1
        | none => RouteAction.warnMissing) ∧
      ∀ t, queryRoute prompt files runFiles ≠ RouteAction.runTask t) ∧
    (∀ prompt files runFiles,
      (listContains (pyLower prompt) "report".data && !(parse_columns prompt).1.isEmpty) = false →
      queryRoute prompt files runFiles =
        RouteAction.runTask (prompt ++ "\nAvailable datasets: ".data ++
          List.intercalate ", ".data (runFiles.filter isDatasetFile))) := by
  constructor
  · intro prompt files runFiles h
    constructor
    · simp only [queryRoute, h, if_true]
    · intro t
      simp only [queryRoute, h, if_true]
      rcases hfd : find_dataset_path (parse_columns prompt).2 files with _ | fp <;>
        simp [hfd]
  · intro prompt files runFiles h
    simp only [queryRoute, h, Bool.false_eq_true, if_false]

theorem find?_min_of_sorted (p : PyStr → Bool) :
    ∀ l : List PyStr, l.Sorted strLe → ∀ m, l.find? p = some m →
      ∀ x ∈ l, p x = true → strLe m x := by
  intro l
  induction l with
  | nil => intro _ m hm; simp at hm
  | cons a t ih =>
    intro hs m hm x hx hpx
    rcases List.sorted_cons.mp hs with ⟨ha, hts⟩
    by_cases hpa : p a = true
    · rw [List.find?_cons_of_pos _ hpa] at hm
      have hma : a = m := Option.some.inj hm
      subst hma
      rcases List.mem_cons.mp hx with rfl | hxt
      · exact strLtb_irrefl x
      · exact ha x hxt
    · rw [List.find?_cons_of_neg _ (by simpa using hpa)] at hm
      rcases List.mem_cons.mp hx with rfl | hxt
      · exact absurd hpx hpa
      · exact ih hts m hm x hxt hpx

/-- C9: when the prompt has no `data<N>` token, dataset resolution scans the
workspace in sorted order: a returned file is a workspace file, starts with
`data`, has a recognized extension, and is lexicographically least among all
such files; `None` comes back exactly when no such file exists. -/
theorem find_dataset_default_min :
    ∀ (prompt : PyStr) (files : List PyStr),
      (parse_columns prompt).2 = none →
      (∀ f, find_dataset_path (parse_columns prompt).2 files = some f →
        f ∈ files ∧ isDatasetFile f = true ∧
        ∀ g ∈ files, isDatasetFile g = true → strLe f g) ∧
      (find_dataset_path (parse_columns prompt).2 files = none →
        ∀ g ∈ files, isDatasetFile g = false) := by
  intro prompt files h
  rw [h]
  simp only [find_dataset_path]
  constructor
  · intro f hf
    refine ⟨?_, List.find?_some hf, ?_⟩
    · exact (List.mem_insertionSort strLe).mp (List.mem_of_find?_eq_some hf)
    · intro g hg hpg
      exact find?_min_of_sorted isDatasetFile _ (List.sorted_insertionSort strLe files)
        f hf g ((List.mem_insertionSort strLe).mpr hg) hpg
  · intro hnone g hg
    have hng := List.find?_eq_none.mp hnone g ((List.mem_insertionSort strLe).mpr hg)
    simpa using hng

theorem find_dataset_default_min_w :
    "data1.csv".data ∈ ["data2.csv".data, "data1.csv".data, "notes.txt".data] ∧
    isDatasetFile "data1.csv".data = true ∧
    ∀ g ∈ ["data2.csv".data, "data1.csv".data, "notes.txt".data],
      isDatasetFile g = true → strLe "data1.csv".data g :=
  (find_dataset_default_min "hello".data
      ["data2.csv".data, "data1.csv".data, "notes.txt".data] (by decide)).1
    "data1.csv".data (by decide)

/-- C10: an explicitly named dataset `data<N>` that exists under no recognized
extension makes `find_dataset_path` return `None` with no fallback to the
first available dataset; the report branch then warns, produces no document,
and leaves the workspace and the Persistent Artifact Slot unchanged. -/
theorem explicit_dataset_no_fallback :
    ∀ (name : PyStr) (files runFiles : List PyStr) (slot : Option PyStr),
      (∀ ext ∈ DATA_EXTS, (name ++ ext) ∉ files) →
      find_dataset_path (some name) files = none ∧
      (∀ prompt, (parse_columns prompt).2 = some name →
        listContains (pyLower prompt) "report".data = true →
        (parse_columns prompt).1 ≠ [] →
        queryRoute prompt files runFiles = RouteAction.warnMissing) ∧
      reportBranchEffect files slot = (files, slot) := by
  intro name files runFiles slot h
  have hnone : find_dataset_path (some name) files = none := by
    simp only [find_dataset_path]
    rw [List.findSome?_eq_none_iff]
    intro ext hext
    simp [h ext hext]
  refine ⟨hnone, ?_, rfl⟩
  intro prompt hds hrep hcols
  have hne : (parse_columns prompt).1.isEmpty = false := by
    rcases hl : (parse_columns prompt).1 with _ | _
    · exact absurd hl hcols
    · rfl
  simp [queryRoute, hrep, hne, hds, hnone]

theorem explicit_dataset_no_fallback_w :
    queryRoute "report temp one from data9".data ["data1.csv".data] [] =
      RouteAction.warnMissing :=
  ((explicit_dataset_no_fallback "data9".data ["data1.csv".data] [] none
      (by decide)).2.1
    "report temp one from data9".data (by decide) (by decide) (by decide))

/-! ## `utils/data.py`: the orchestration loop -/

/-- The two team participants configured in `team_config` (`utils/data.py`
lines 76-139): the assistant agent named `code_developer` and the code
executor agent named `code_executor`. -/
inductive Speaker where
  | developer
  | executor
deriving DecidableEq

/-- The agent's `name` attribute, which is the `message.source` interpolated
by `orchestrate` (`utils/data.py` lines 77, 131, 162). -/
def Speaker.sourceName : Speaker → PyStr
  | .developer => "code_developer".data
  | .executor => "code_executor".data

/-- Round-robin alternation: the participant speaking after `s`. -/
def Speaker.next : Speaker → Speaker
  | .developer => .executor
  | .executor => .developer

/-- `max_turns=20` of the `RoundRobinGroupChat` built by `team_config`
(`utils/data.py` line 138). -/
def MAX_TURNS : Nat := 20

/-- The phrase of `TextMentionTermination("TERMINATE")` (`utils/data.py`
line 137). -/
def TERMINATOR : PyStr := "TERMINATE".data

/-- Why the loop stopped: the spec's `TERMINATED(phrase)` state versus its
`max-turns-exceeded` bound (spec, section 4.2). -/
inductive StopReason where
  | terminatorMentioned
  | maxTurnsExceeded
deriving DecidableEq

/-- The stop reason as the text interpolated into the final stream item
(the spec names the bound case `max-turns-exceeded`). -/
def StopReason.text : StopReason → PyStr
  | .terminatorMentioned => "text TERMINATE mentioned".data
  | .maxTurnsExceeded => "max-turns-exceeded".data

/-- Modelled from the spec: the group-chat engine `RoundRobinGroupChat`
whose `run_stream` the repository's `orchestrate` iterates (`utils/data.py`
lines 158-166) is autogen library code and is not among the repository's
files; section 4.2 of the spec describes it as a state machine alternating
Developer and Executor strictly, starting with the Developer, stopping as
`TERMINATED(phrase)` when a message contains the terminator phrase and
force-stopping with `max-turns-exceeded` once the turn bound is used up. The
two agents are arbitrary functions from the turn history to the next
message; `fuel` is the number of turns still allowed. -/
def loopGo (dev exe : List (Speaker × PyStr) → PyStr) :
    Nat → Speaker → List (Speaker × PyStr) → List (Speaker × PyStr) × StopReason
  | 0, _, hist => (hist, .maxTurnsExceeded)
  | fuel + 1, s, hist =>
    let msg := match s with | .developer => dev hist | .executor => exe hist
    let hist2 := hist ++ [(s, msg)]
    if listContains msg TERMINATOR then (hist2, .terminatorMentioned)
    else loopGo dev exe fuel s.next hist2

/-- One run of the configured team: `MAX_TURNS` turns of fuel, Developer
first, empty history. -/
def run_team (dev exe : List (Speaker × PyStr) → PyStr) :
    List (Speaker × PyStr) × StopReason :=
  loopGo dev exe MAX_TURNS .developer []

/-- The items `orchestrate` yields to its caller (`utils/data.py` lines
157-166): each `TextMessage` becomes `f"{message.source}: {message.content}"`
and the final `TaskResult` becomes `f"Stopping reason: {message.stop_reason}"`. -/
def orchestrate_stream (dev exe : List (Speaker × PyStr) → PyStr) : List PyStr :=
  let r := run_team dev exe
  r.1.map (fun t => t.1.sourceName ++ ": ".data ++ t.2) ++
    ["Stopping reason: ".data ++ r.2.text]

theorem Speaker.next_ne (s : Speaker) : s.next ≠ s := by
  cases s <;> decide

theorem Speaker.next_of_ne {s sp : Speaker} (h : s ≠ sp) : s.next = sp := by
  cases s <;> cases sp <;> simp_all [Speaker.next]

theorem loopGo_length (dev exe : List (Speaker × PyStr) → PyStr) :
    ∀ fuel s hist, ((loopGo dev exe fuel s hist).1).length ≤ hist.length + fuel := by
  intro fuel
  induction fuel with
  | zero => intro s hist; simp [loopGo]
  | succ n ih =>
    intro s hist
    simp only [loopGo]
    split
    · simp
    · exact le_trans (ih s.next _) (by simp; omega)

theorem loopGo_maxTurns_length (dev exe : List (Speaker × PyStr) → PyStr) :
    ∀ fuel s hist, (loopGo dev exe fuel s hist).2 = StopReason.maxTurnsExceeded →
      (loopGo dev exe fuel s hist).1.length = hist.length + fuel := by
  intro fuel
  induction fuel with
  | zero => intro s hist _; simp [loopGo]
  | succ n ih =>
    intro s hist h
    simp only [loopGo] at h ⊢
    split at h <;> rename_i hterm
    · simp at h
    · rw [if_neg hterm, ih s.next _ h]
      simp
      omega

theorem loopGo_terminator_mem (dev exe : List (Speaker × PyStr) → PyStr) :
    ∀ fuel s hist, (loopGo dev exe fuel s hist).2 = StopReason.terminatorMentioned →
      ∃ t ∈ (loopGo dev exe fuel s hist).1, listContains t.2 TERMINATOR = true := by
  intro fuel
  induction fuel with
  | zero => intro s hist h; simp [loopGo] at h
  | succ n ih =>
    intro s hist h
    simp only [loopGo] at h ⊢
    split at h <;> rename_i hterm
    · rw [if_pos hterm]
      exact ⟨(s, _), by simp, hterm⟩
    · rw [if_neg hterm]
      exact ih s.next _ h

/-- Turn quota for the participant counted as `sp` when fuel many turns
remain and `s` speaks next: alternation gives the next speaker the rounded-up
half. -/
def turnQuota (sp s : Speaker) (fuel : Nat) : Nat :=
  if s = sp then (fuel + 1) / 2 else fuel / 2

theorem loopGo_countP (dev exe : List (Speaker × PyStr) → PyStr) (sp : Speaker) :
    ∀ fuel s hist,
      ((loopGo dev exe fuel s hist).1.countP (fun t => decide (t.1 = sp))) ≤
        hist.countP (fun t => decide (t.1 = sp)) + turnQuota sp s fuel := by
  intro fuel
  induction fuel with
  | zero => intro s hist; simp [loopGo, turnQuota]
  | succ n ih =>
    intro s hist
    simp only [loopGo]
    split
    · rw [List.countP_append]
      by_cases hsp : s = sp
      · simp [hsp, turnQuota]
        omega
      · simp [hsp, turnQuota]
    · refine le_trans (ih s.next _) ?_
      rw [List.countP_append]
      by_cases hsp : s = sp
      · subst hsp
        simp [turnQuota, Speaker.next_ne s]
        omega
      · rw [Speaker.next_of_ne hsp]
        simp [turnQuota, hsp]

/-- C1: the orchestration loop always terminates - the model recurses on the
turn fuel, so totality is structural - and every run emits at most 20 turns,
of which at most 10 are Developer turns and at most 10 Executor turns; it
stops either because a turn's message contains `TERMINATE` or, exactly when
all 20 turns were used, with the `max-turns-exceeded` stop reason. -/
theorem orchestration_bounded :
    ∀ dev exe : List (Speaker × PyStr) → PyStr,
      (run_team dev exe).1.length ≤ 20 ∧
      (run_team dev exe).1.countP (fun t => decide (t.1 = Speaker.developer)) ≤ 10 ∧
      (run_team dev exe).1.countP (fun t => decide (t.1 = Speaker.executor)) ≤ 10 ∧
      ((run_team dev exe).2 = StopReason.terminatorMentioned →
        ∃ t ∈ (run_team dev exe).1, listContains t.2 TERMINATOR = true) ∧
      ((run_team dev exe).2 = StopReason.maxTurnsExceeded →
        (run_team dev exe).1.length = 20) := by
  intro dev exe
  refine ⟨?_, ?_, ?_, ?_, ?_⟩
  · simpa [MAX_TURNS] using loopGo_length dev exe MAX_TURNS Speaker.developer []
  · simpa [MAX_TURNS, turnQuota] using
      loopGo_countP dev exe Speaker.developer MAX_TURNS Speaker.developer []
  · simpa [MAX_TURNS, turnQuota] using
      loopGo_countP dev exe Speaker.executor MAX_TURNS Speaker.developer []
  · exact loopGo_terminator_mem dev exe MAX_TURNS Speaker.developer []
  · intro h
    simpa [MAX_TURNS] using loopGo_maxTurns_length dev exe MAX_TURNS Speaker.developer [] h

theorem cons_append_ne {a b : Char} (h : a ≠ b) (l1 l2 r1 r2 : PyStr) :
    (a :: l1) ++ r1 ≠ (b :: l2) ++ r2 := by
  simp [h]

/-- C6: every item the loop yields is its speaker-tagged turn message -
prefixed `code_developer: ` or `code_executor: ` - except the final item,
which always exists, is prefixed `Stopping reason: `, and differs from every
ordinary turn message of the sequence. -/
theorem orchestrate_stream_shape :
    ∀ dev exe : List (Speaker × PyStr) → PyStr,
      orchestrate_stream dev exe ≠ [] ∧
      (∀ m ∈ (orchestrate_stream dev exe).dropLast,
        (∃ r, m = "code_developer: ".data ++ r) ∨
        (∃ r, m = "code_executor: ".data ++ r)) ∧
      (∃ r, (orchestrate_stream dev exe).getLast? =
        some ("Stopping reason: ".data ++ r)) ∧
      (∀ m ∈ (orchestrate_stream dev exe).dropLast, ∀ l,
        (orchestrate_stream dev exe).getLast? = some l → m ≠ l) := by
  intro dev exe
  have hdrop : (orchestrate_stream dev exe).dropLast =
      (run_team dev exe).1.map (fun t => t.1.sourceName ++ ": ".data ++ t.2) := by
    simp [orchestrate_stream]
  have hlast : (orchestrate_stream dev exe).getLast? =
      some ("Stopping reason: ".data ++ (run_team dev exe).2.text) := by
    simp [orchestrate_stream]
  refine ⟨by simp [orchestrate_stream], ?_, ⟨_, hlast⟩, ?_⟩
  · intro m hm
    rw [hdrop] at hm
    obtain ⟨t, _, rfl⟩ := List.mem_map.mp hm
    cases hsp : t.1
    · exact Or.inl ⟨t.2, rfl⟩
    · exact Or.inr ⟨t.2, rfl⟩
  · intro m hm l hl
    rw [hlast] at hl
    have hl2 : l = "Stopping reason: ".data ++ (run_team dev exe).2.text :=
      Option.some.inj hl.symm
    subst hl2
    rw [hdrop] at hm
    obtain ⟨t, _, rfl⟩ := List.mem_map.mp hm
    cases hsp : t.1
    · exact cons_append_ne (by decide) "ode_developer: ".data "topping reason: ".data
        t.2 (run_team dev exe).2.text
    · exact cons_append_ne (by decide) "ode_executor: ".data "topping reason: ".data
        t.2 (run_team dev exe).2.text

/-! ## Sandbox lifecycle: `orchestrate`'s and `query`'s try/finally -/

/-- The sandbox operations the claims observe, in trace order: an attempted
`local_executor.start()`, the log line of a failed start, one yielded turn,
an attempted `local_executor.stop()`, and the log line of a failed stop. -/
inductive SbEv where
  | startTry
  | startFailLog
  | turn (i : Nat)
  | stopTry
  | stopFailLog
deriving DecidableEq

/-- Control-flow skeleton of `orchestrate` (`utils/data.py` lines 144-172):
`start()` is attempted first and a failure is logged and re-raised (lines
151-155), the streaming loop then runs inside `try ... finally` whose
`finally` attempts `stop()` and logs - but swallows - its failure (lines
157-171). The library loop body is abstracted by two oracles: `nTurns`
yielded turns and `loopErr`, whether the stream raises after them. The
returned Bool is whether an exception propagates to the caller. -/
def orchestrate_sandbox (startOk : Bool) (nTurns : Nat) (loopErr : Bool)
    (stopOk : Bool) : List SbEv × Bool :=
  if startOk then
    (SbEv.startTry :: ((List.range nTurns).map SbEv.turn ++
      (SbEv.stopTry :: if stopOk then [] else [SbEv.stopFailLog])), loopErr)
  else
    ([SbEv.startTry, SbEv.startFailLog], true)

/-- Control-flow skeleton of `query`'s iteration of `orchestrate` (`app.py`
lines 261-317): whatever `orchestrate` did - including a start failure that
raised before any turn - `query`'s `finally` attempts `local.stop()` once
more and swallows any failure silently (lines 314-317); the exception status
of the generator passes through unchanged. `stopOk2` is that second stop
attempt's outcome, which affects nothing observable. -/
def query_sandbox (startOk : Bool) (nTurns : Nat) (loopErr : Bool)
    (stopOk1 stopOk2 : Bool) : List SbEv × Bool :=
  ((orchestrate_sandbox startOk nTurns loopErr stopOk1).1 ++ [SbEv.stopTry],
    (orchestrate_sandbox startOk nTurns loopErr stopOk1).2)

/-- C3: on every invocation the sandbox start is attempted first - before any
turn - and exactly once; a stop is attempted after the loop ends on every
path (the event trace always ends with a stop attempt), including when the
run fails; a start failure yields no turns and propagates the exception to
the caller; and neither stop outcome changes whether the run propagates an
exception, which for a successful start is exactly the loop's own failure
status. -/
theorem sandbox_lifecycle :
    ∀ (startOk loopErr stopOk1 stopOk2 : Bool) (nTurns : Nat),
      (query_sandbox startOk nTurns loopErr stopOk1 stopOk2).1.head? =
        some SbEv.startTry ∧
      (query_sandbox startOk nTurns loopErr stopOk1 stopOk2).1.count
        SbEv.startTry = 1 ∧
      (∃ pre, (query_sandbox startOk nTurns loopErr stopOk1 stopOk2).1 =
        pre ++ [SbEv.stopTry]) ∧
      (startOk = false →
        (query_sandbox startOk nTurns loopErr stopOk1 stopOk2).2 = true ∧
        ∀ k, SbEv.turn k ∉ (query_sandbox startOk nTurns loopErr stopOk1 stopOk2).1) ∧
      (startOk = true →
        (query_sandbox startOk nTurns loopErr stopOk1 stopOk2).2 = loopErr ∧
        ∀ k, k < nTurns →
          SbEv.turn k ∈ (query_sandbox startOk nTurns loopErr stopOk1 stopOk2).1) := by
  intro startOk loopErr stopOk1 stopOk2 nTurns
  cases startOk
  · refine ⟨rfl, rfl, ⟨[SbEv.startTry, SbEv.startFailLog], rfl⟩, fun _ => ⟨rfl, ?_⟩,
      by simp⟩
    intro k
    simp [query_sandbox, orchestrate_sandbox]
  · refine ⟨rfl, ?_, ?_, by simp, fun _ => ⟨rfl, ?_⟩⟩
    · have hnot : SbEv.startTry ∉
          ((List.range nTurns).map SbEv.turn ++
            (SbEv.stopTry :: if stopOk1 then [] else [SbEv.stopFailLog])) ++
            [SbEv.stopTry] := by
        intro hmem
        rcases List.mem_append.mp hmem with h1 | h2
        · rcases List.mem_append.mp h1 with hmap | hrest
          · obtain ⟨i, _, hi⟩ := List.mem_map.mp hmap
            exact SbEv.noConfusion hi
          · rcases List.mem_cons.mp hrest with hc | hc
            · exact SbEv.noConfusion hc
            · cases stopOk1 <;> simp_all
        · simp_all
      simp only [query_sandbox, orchestrate_sandbox, if_true, List.cons_append]
      rw [List.count_cons_self, List.count_eq_zero.mpr (by exact_mod_cast hnot)]
    · refine ⟨SbEv.startTry :: ((List.range nTurns).map SbEv.turn ++
        (SbEv.stopTry :: if stopOk1 then [] else [SbEv.stopFailLog])), rfl⟩
    · intro k hk
      simp only [query_sandbox, orchestrate_sandbox, if_true]
      refine List.mem_append_left _ ?_
      refine List.mem_cons_of_mem _ (List.mem_append_left _ ?_)
      exact List.mem_map.mpr ⟨k, List.mem_range.mpr hk, rfl⟩

/-! ## `app.py`: run workspace files and artifact promotion -/

/-- A file on disk: its path as directory components ending in the file
name, and its modification time. Two paths are the same resolved identity
exactly when the component lists are equal (no symlinks are involved, so
`Path.resolve()` is the identity on these paths). -/
structure PFile where
  path : List PyStr
  mtime : Nat
deriving DecidableEq

/-- The single long-lived working directory `TEMP_DIR` (`app.py` lines
14-16); run directories and promoted artifacts both live directly under it. -/
def tempDirName : PyStr := "temp".data

/-- The test of `run_dir.glob("*.png")` (`app.py` line 280): a file directly
inside the run directory `TEMP_DIR/<run_id>` whose name ends in `.png`. -/
def isRunPng (runId : PyStr) (f : PFile) : Bool :=
  match f.path with
  | [d, r, n] => d == tempDirName && r == runId && ".png".data.isSuffixOf n
  | _ => false

/-- The order of `sorted(..., key=lambda p: p.stat().st_mtime)` (`app.py`
lines 279-281). -/
def mtimeLe (a b : PFile) : Prop := a.mtime ≤ b.mtime

instance : DecidableRel mtimeLe := fun a b => Nat.decLe a.mtime b.mtime

instance : IsTotal PFile mtimeLe := ⟨fun a b => Nat.le_total a.mtime b.mtime⟩

instance : IsTrans PFile mtimeLe := ⟨fun _ _ _ => Nat.le_trans⟩

/-- `pngs = sorted(run_dir.glob("*.png"), key=...)` followed by `pngs[-1]`
(`app.py` lines 279-283): the last element of the run pngs sorted by
modification time, or `None` when the run produced no png. -/
def latestPng (runId : PyStr) (fs : List PFile) : Option PFile :=
  ((fs.filter (isRunPng runId)).insertionSort mtimeLe).getLast?

/-- The copy destination `TEMP_DIR / f"{run_id}_{latest_png.name}"`
(`app.py` line 284): directly inside `TEMP_DIR`, name embedding the run id. -/
def destPath (runId : PyStr) (latest : PFile) : List PyStr :=
  [tempDirName, runId ++ "_".data ++ latest.path.getLastD []]

/-- The artifact-promotion step of `query`'s cleanup (`app.py` lines
278-312) over the file list and the Persistent Artifact Slot
`st.session_state["last_plot"]`. `copyOk` is whether `shutil.copy2`
succeeds - on failure the exception handler at lines 293-296 skips the slot
assignment and the `else` clause, so nothing is deleted; `delOk` is whether
the `unlink` of the previous occupant succeeds - its failure is caught and
only logged (lines 306-310). The previous occupant is unlinked only in the
`else` of a successful copy, only when it exists, and only when its resolved
path differs from the new destination (lines 297-305). Yields the file list,
the slot, and the deleted paths. -/
def promote_artifact (runId : PyStr) (copyOk delOk : Bool)
    (fs : List PFile) (slot : Option (List PyStr)) :
    List PFile × Option (List PyStr) × List (List PyStr) :=
  match latestPng runId fs with
  | none => (fs, slot, [])
  | some latest =>
    if copyOk then
      let dest := destPath runId latest
      let fs1 := fs.filter (fun f => !(f.path == dest)) ++ [⟨dest, latest.mtime⟩]
      match slot with
      | some prev =>
        if fs1.any (fun f => f.path == prev) && !(prev == dest) && delOk then
          (fs1.filter (fun f => !(f.path == prev)), some dest, [prev])
        else (fs1, some dest, [])
      | none => (fs1, some dest, [])
    else (fs, slot, [])

/-- `shutil.rmtree(run_dir)` (`app.py` lines 319-323): every file at or
below `TEMP_DIR/<run_id>` disappears; no other file is touched. -/
def rmtree_run (runId : PyStr) (fs : List PFile) : List PFile :=
  fs.filter (fun f => !([tempDirName, runId].isPrefixOf f.path))

theorem sorted_getLast?_max :
    ∀ l : List PFile, l.Sorted mtimeLe → ∀ m, l.getLast? = some m →
      ∀ x ∈ l, x.mtime ≤ m.mtime := by
  intro l
  induction l with
  | nil => intro _ m hm; simp at hm
  | cons a t ih =>
    intro hs m hm x hx
    rcases List.sorted_cons.mp hs with ⟨ha, hts⟩
    cases t with
    | nil =>
      have hma : a = m := by simpa using hm
      subst hma
      have hxa : x = a := by simpa using hx
      subst hxa
      exact Nat.le_refl _
    | cons b t2 =>
      have hm2 : (b :: t2).getLast? = some m := by
        simpa [List.getLast?_cons_cons] using hm
      rcases List.mem_cons.mp hx with rfl | hxt
      · exact ha m (List.mem_of_mem_getLast? hm2)
      · exact ih hts m hm2 x hxt

/-- C2: artifact promotion. With at least one png in the run directory, the
chosen file is a run png of maximal modification time, and the copy
destination embeds the run identifier; if the copy fails the file list, the
slot and the deletions are all untouched, so the slot keeps its previous
value; if the copy succeeds the slot points at the new destination, the
destination file exists, and anything deleted is exactly the previous slot
occupant and differs in resolved identity from the new file. -/
theorem promote_artifact_spec :
    ∀ (runId : PyStr) (copyOk delOk : Bool) (fs : List PFile)
      (slot : Option (List PyStr)),
      fs.filter (isRunPng runId) ≠ [] →
      ∃ latest, latestPng runId fs = some latest ∧
        isRunPng runId latest = true ∧ latest ∈ fs ∧
        (∀ g ∈ fs, isRunPng runId g = true → g.mtime ≤ latest.mtime) ∧
        (copyOk = false →
          promote_artifact runId copyOk delOk fs slot = (fs, slot, [])) ∧
        (copyOk = true →
          (promote_artifact runId copyOk delOk fs slot).2.1 =
            some (destPath runId latest) ∧
          (⟨destPath runId latest, latest.mtime⟩ : PFile) ∈
            (promote_artifact runId copyOk delOk fs slot).1 ∧
          ∀ d ∈ (promote_artifact runId copyOk delOk fs slot).2.2,
            slot = some d ∧ d ≠ destPath runId latest) := by
  intro runId copyOk delOk fs slot hne
  have hsne : (fs.filter (isRunPng runId)).insertionSort mtimeLe ≠ [] := by
    intro h0
    have hlen := congrArg List.length h0
    rw [List.length_insertionSort] at hlen
    exact hne (List.length_eq_zero.mp hlen)
  obtain ⟨latest, hlatest⟩ :=
    Option.isSome_iff_exists.mp (List.getLast?_isSome.mpr hsne)
  have hlp : latestPng runId fs = some latest := hlatest
  have hmem : latest ∈ fs.filter (isRunPng runId) :=
    (List.mem_insertionSort mtimeLe).mp (List.mem_of_mem_getLast? hlatest)
  refine ⟨latest, hlp, (List.mem_filter.mp hmem).2, (List.mem_filter.mp hmem).1,
    ?_, ?_, ?_⟩
  · intro g hg hpng
    have hg2 : g ∈ (fs.filter (isRunPng runId)).insertionSort mtimeLe :=
      (List.mem_insertionSort mtimeLe).mpr (List.mem_filter.mpr ⟨hg, hpng⟩)
    exact sorted_getLast?_max _ (List.sorted_insertionSort mtimeLe _) latest
      hlatest g hg2
  · intro hc
    subst hc
    simp [promote_artifact, hlp]
  · intro hc
    subst hc
    rcases slot with _ | prev
    · simp only [promote_artifact, hlp, if_true]
      refine ⟨by simp, ?_, by simp⟩
      exact List.mem_append_right _ (List.mem_singleton.mpr rfl)
    · simp only [promote_artifact, hlp, if_true]
      by_cases hcond :
        ((fs.filter (fun f : PFile => !(f.path == destPath runId latest)) ++
            [(⟨destPath runId latest, latest.mtime⟩ : PFile)]).any
          (fun f : PFile => f.path == prev) && !(prev == destPath runId latest) &&
            delOk) = true
      · have hpd : prev ≠ destPath runId latest := by
          have hcond2 := hcond
          simp only [Bool.and_eq_true] at hcond2
          simpa using hcond2.1.2
        rw [if_pos hcond]
        refine ⟨by simp, ?_, ?_⟩
        · refine List.mem_filter.mpr ⟨?_, ?_⟩
          · exact List.mem_append_right _ (List.mem_singleton.mpr rfl)
          · simpa using fun hc2 => hpd hc2.symm
        · intro d hd
          have hdp : d = prev := by simpa using hd
          subst hdp
          exact ⟨rfl, hpd⟩
      · rw [if_neg hcond]
        refine ⟨by simp, ?_, by simp⟩
        exact List.mem_append_right _ (List.mem_singleton.mpr rfl)

/-- Concrete run files for the C2 witness: two pngs of one run. -/
def wRunFs : List PFile :=
  [⟨["temp".data, "r1".data, "a.png".data], 3⟩,
   ⟨["temp".data, "r1".data, "b.png".data], 5⟩]

/-- Concrete previous slot occupant for the C2 witness. -/
def wSlot : Option (List PyStr) := some ["temp".data, "p.png".data]

theorem promote_artifact_spec_w :
    ∃ latest, latestPng "r1".data wRunFs = some latest ∧
      isRunPng "r1".data latest = true ∧ latest ∈ wRunFs ∧
      (∀ g ∈ wRunFs, isRunPng "r1".data g = true → g.mtime ≤ latest.mtime) ∧
      (true = false →
        promote_artifact "r1".data true true wRunFs wSlot = (wRunFs, wSlot, [])) ∧
      (true = true →
        (promote_artifact "r1".data true true wRunFs wSlot).2.1 =
          some (destPath "r1".data latest) ∧
        (⟨destPath "r1".data latest, latest.mtime⟩ : PFile) ∈
          (promote_artifact "r1".data true true wRunFs wSlot).1 ∧
        ∀ d ∈ (promote_artifact "r1".data true true wRunFs wSlot).2.2,
          wSlot = some d ∧ d ≠ destPath "r1".data latest) :=
  promote_artifact_spec "r1".data true true wRunFs wSlot (by decide)

/-- C4: a run that produced no image leaves the file list, the Persistent
Artifact Slot and the deletion list untouched; destroying the run directory
removes exactly the files at or below `TEMP_DIR/<run_id>`; a slot file lying
directly in `TEMP_DIR` under any name other than the run identifier survives
the removal; and a promoted artifact's name `run_id + "_" + ...` never equals
the run identifier, so the slot's file always lives outside the run
directory. -/
theorem no_image_slot_frame :
    ∀ (runId nm : PyStr) (fs : List PFile) (slot : Option (List PyStr))
      (copyOk delOk : Bool),
      (fs.filter (isRunPng runId) = [] →
        promote_artifact runId copyOk delOk fs slot = (fs, slot, [])) ∧
      (∀ f ∈ fs, [tempDirName, runId].isPrefixOf f.path = true →
        f ∉ rmtree_run runId fs) ∧
      (∀ f ∈ fs, [tempDirName, runId].isPrefixOf f.path = false →
        f ∈ rmtree_run runId fs) ∧
      (nm ≠ runId →
        ∀ f ∈ fs, f.path = [tempDirName, nm] → f ∈ rmtree_run runId fs) ∧
      (∀ x : PyStr, runId ++ "_".data ++ x ≠ runId) := by
  intro runId nm fs slot copyOk delOk
  refine ⟨?_, ?_, ?_, ?_, ?_⟩
  · intro h
    have hlp : latestPng runId fs = none := by
      simp [latestPng, h]
    simp [promote_artifact, hlp]
  · intro f _ hpref hmem
    have := (List.mem_filter.mp hmem).2
    simp [hpref] at this
  · intro f hf hpref
    exact List.mem_filter.mpr ⟨hf, by simp [hpref]⟩
  · intro hnm f hf hpath
    refine List.mem_filter.mpr ⟨hf, ?_⟩
    rw [hpath]
    simp [List.isPrefixOf, tempDirName]
    exact fun hc => hnm hc.symm
  · intro x hx
    have hlen := congrArg List.length hx
    simp [List.length_append] at hlen
